import Mathlib

/-!
Verification development for the GraphTsetlinMachine repository
(GraphTsetlinMachine/tm.py).  The Python classes are shallowly embedded:
pure computations become Lean functions on `List`s, the mutable
`CommonTsetlinMachine` object becomes an explicit state record, fallible
entry points return `Except`, and the CUDA kernels (whose source lives in
`GraphTsetlinMachine/kernels.py`, outside this development) are treated as
opaque parameters: every theorem that touches them is quantified over the
kernel semantics, so it holds for any kernel behaviour.
-/

namespace GraphTM

/-! ## Hypervector-table construction (`CommonTsetlinMachine.__init__`)

`tm.py` lines 89-101.  With `double_hashing` the table is deterministic and
uses `sympy.prevprime(message_size)`; without it, row `i` is
`np.random.choice(np.arange(message_size), size=message_bits, replace=False)`.
Sampling without replacement is modelled by an arbitrary family `rng` of
permutations of `range message_size`, of which the first `message_bits`
entries are taken. -/

/-- `sympy.prevprime n`: the largest prime strictly below `n`
(defined for `n ≥ 3`; we return `0` when no prime exists below `n`). -/
def prevprime (n : Nat) : Nat :=
  Nat.findGreatest Nat.Prime (n - 1)

/-- Row `i` of the hypervector table when `double_hashing=True`
(`tm.py` lines 93-96). -/
def hvRowDouble (message_size i : Nat) : List Nat :=
  [i % message_size, message_size + prevprime message_size - i % prevprime message_size]

/-- The hypervector table built by `CommonTsetlinMachine.__init__`
(`tm.py` lines 89-101). `rng i` models the state of `np.random` at row `i`:
a permutation of `np.arange(message_size)` of which `np.random.choice`
with `replace=False` keeps the first `message_bits` entries. -/
def initHypervectors (rng : Nat → List Nat) (number_of_clauses message_size message_bits : Nat)
    (double_hashing : Bool) : List (List Nat) :=
  if double_hashing then
    (List.range number_of_clauses).map (hvRowDouble message_size)
  else
    (List.range number_of_clauses).map (fun i => (rng i).take message_bits)

/-- The `message_bits` attribute after `__init__`: line 73 stores the
argument, line 91 overwrites it with `2` when `double_hashing` is set. -/
def initMessageBits (message_bits : Nat) (double_hashing : Bool) : Nat :=
  if double_hashing then 2 else message_bits

/-- A decidable rendering of claim C2's property for one table:
every row consists of pairwise-distinct positions, `message_bits` of them,
all inside `[0, message_size)`. -/
def hvTableClaimC2 (table : List (List Nat)) (message_size message_bits : Nat) : Bool :=
  table.all (fun row =>
    row.length == message_bits && row.Nodup && row.all (fun p => p < message_size))

/-- A fixed dummy permutation family used for concrete instances (the
`double_hashing=True` branch never reads `rng`). -/
def rng0 (message_size : Nat) : Nat → List Nat := fun _ => List.range message_size

lemma two_le_prevprime {n : Nat} (h : 3 ≤ n) : 2 ≤ prevprime n :=
  Nat.le_findGreatest (by omega) Nat.prime_two

lemma hvRowDouble_facts {message_size : Nat} (h : 3 ≤ message_size) (i : Nat) :
    (hvRowDouble message_size i).length = 2 ∧
    (hvRowDouble message_size i).Nodup ∧
    (hvRowDouble message_size i).headD 0 < message_size ∧
    message_size < (hvRowDouble message_size i).getD 1 0 ∧
    (hvRowDouble message_size i).getD 1 0 ≤ message_size + prevprime message_size := by
  have hp : 2 ≤ prevprime message_size := two_le_prevprime h
  have hmod : i % prevprime message_size < prevprime message_size :=
    Nat.mod_lt _ (by omega)
  have hfst : i % message_size < message_size := Nat.mod_lt _ (by omega)
  refine ⟨rfl, ?_, ?_, ?_, ?_⟩
  · simp only [hvRowDouble, List.nodup_cons, List.mem_singleton, List.not_mem_nil,
      List.nodup_nil, and_true, not_false_iff]
    omega
  · simpa [hvRowDouble] using hfst
  · simp only [hvRowDouble, List.getD_cons_succ, List.getD_cons_zero]
    omega
  · simp only [hvRowDouble, List.getD_cons_succ, List.getD_cons_zero]
    omega

end GraphTM

namespace GraphTM

/-- C9: with `double_hashing=True` the stored `message_bits` attribute is `2`
whatever value was passed (`tm.py` line 91 overwrites line 73); the passed
value is kept exactly when `double_hashing=False`. -/
theorem c9_message_bits_forced_to_two :
    ∀ message_bits : Nat,
      initMessageBits message_bits true = 2 ∧
      initMessageBits message_bits false = message_bits :=
  fun _ => ⟨rfl, rfl⟩

/-- C2 (counterexample): with `double_hashing=True`, `message_size = 4`,
one clause, the single hypervector row is `[0, 7]` and position `7` lies
outside `[0, 4)`, so the claimed invariant is false as stated. -/
theorem c2_counterexample :
    hvTableClaimC2 (initHypervectors (rng0 4) 1 4 2 true) 4
      (initMessageBits 2 true) = false := by
  decide

/-- C2 (amended): every row of the hypervector table has exactly
`message_bits` (after the `double_hashing` override) pairwise-distinct
positions.  When `double_hashing=False` (and `message_bits ≤ message_size`)
every position lies in `[0, message_size)`; when `double_hashing=True` the
first position lies in `[0, message_size)` but the second lies in
`(message_size, message_size + prevprime message_size]`, outside the claimed
range. -/
theorem c2_amended_hypervector_rows (rng : Nat → List Nat)
    (number_of_clauses message_size message_bits : Nat) (double_hashing : Bool)
    (hbits : message_bits ≤ message_size) (hsz : 3 ≤ message_size)
    (hperm : ∀ i, (rng i).Perm (List.range message_size)) :
    ∀ row ∈ initHypervectors rng number_of_clauses message_size message_bits double_hashing,
      row.length = initMessageBits message_bits double_hashing ∧
      row.Nodup ∧
      (double_hashing = false → ∀ p ∈ row, p < message_size) ∧
      (double_hashing = true →
        row.headD 0 < message_size ∧
        message_size < row.getD 1 0 ∧
        row.getD 1 0 ≤ message_size + prevprime message_size) := by
  intro row hrow
  cases double_hashing with
  | true =>
    have hred : initHypervectors rng number_of_clauses message_size message_bits true =
        (List.range number_of_clauses).map (hvRowDouble message_size) := rfl
    rw [hred, List.mem_map] at hrow
    obtain ⟨i, -, rfl⟩ := hrow
    obtain ⟨hlen, hnd, hhd, hlo, hhi⟩ := hvRowDouble_facts hsz i
    refine ⟨hlen, hnd, ?_, fun _ => ⟨hhd, hlo, hhi⟩⟩
    intro hcontra
    simp at hcontra
  | false =>
    have hred : initHypervectors rng number_of_clauses message_size message_bits false =
        (List.range number_of_clauses).map (fun i => (rng i).take message_bits) := rfl
    rw [hred, List.mem_map] at hrow
    obtain ⟨i, -, rfl⟩ := hrow
    have hlen : (rng i).length = message_size :=
      ((hperm i).length_eq).trans (List.length_range message_size)
    have hnd : (rng i).Nodup := (hperm i).nodup_iff.mpr (List.nodup_range message_size)
    refine ⟨?_, ?_, ?_, fun hcontra => by simp at hcontra⟩
    · simp [List.length_take, hlen, Nat.min_eq_left hbits, initMessageBits]
    · exact hnd.sublist (List.take_sublist _ _)
    · intro _ p hp
      have : p ∈ rng i := List.mem_of_mem_take hp
      have : p ∈ List.range message_size := (hperm i).mem_iff.mp this
      exact List.mem_range.mp this

/-- C2 (amended, witness): concrete instantiation with `message_size = 4`,
`message_bits = 2`, two clauses, identity permutations, `double_hashing=False`:
the first row `[0, 1]` indeed has 2 distinct in-range positions. -/
theorem c2_amended_witness :
    [0, 1] ∈ initHypervectors (rng0 4) 2 4 2 false ∧
    ([0, 1] : List Nat).length = initMessageBits 2 false ∧
    ([0, 1] : List Nat).Nodup ∧
    (false = false → ∀ p ∈ ([0, 1] : List Nat), p < 4) ∧
    (false = true →
      ([0, 1] : List Nat).headD 0 < 4 ∧
      4 < ([0, 1] : List Nat).getD 1 0 ∧
      ([0, 1] : List Nat).getD 1 0 ≤ 4 + prevprime 4) := by
  have hmem : [0, 1] ∈ initHypervectors (rng0 4) 2 4 2 false := by decide
  exact ⟨hmem,
    c2_amended_hypervector_rows (rng0 4) 2 4 2 false (by decide) (by decide)
      (fun _ => List.Perm.refl _) _ hmem⟩

end GraphTM

namespace GraphTM

/-! ## Machine state (`CommonTsetlinMachine`)

The mutable object is a record.  Device buffers (`*_gpu`) and their host
mirrors are separate fields; an empty Python `np.array([])` mirror is the
empty list.  Only the fields that `get_state` / `set_state` / `_init_fit` /
`_score` read or write are modelled; scratch buffers whose prior contents
are never observable (class sums are zeroed per example, message buffers are
fully rewritten each round per the barrier pipeline) are omitted. -/

/-- The graph-set argument as the scoring path sees it: `number_of_graphs`
plus the opaque packed payload consumed by the kernels, and the `signature`
used for buffer-reuse detection. -/
structure Graphs where
  number_of_graphs : Nat
  payload : List Nat
  signature : List Nat
deriving Repr, DecidableEq

/-- State of a `CommonTsetlinMachine` instance. -/
structure MState where
  taGpu : List Nat
  msgTaGpu : List (List Nat)
  weightsGpu : List Int
  taHost : List Nat
  weightsHost : List Int
  number_of_outputs : Nat
  number_of_clauses : Nat
  number_of_literals : Nat
  depth : Nat
  number_of_state_bits : Nat
  number_of_ta_chunks : Nat
  min_y : Option Int
  max_y : Option Int
  hypervectors : List (List Nat)
  initialized : Bool
  sigTrain : List Nat
  sigTest : List Nat
  encodedY : List (List Int)
deriving Repr, DecidableEq

/-- The 10-tuple returned by `get_state` (`tm.py` line 234). -/
structure StateTuple where
  ta : List Nat
  weights : List Int
  outs : Nat
  clauses : Nat
  literals : Nat
  depth : Nat
  stateBits : Nat
  taChunks : Nat
  minY : Option Int
  maxY : Option Int
deriving Repr, DecidableEq

/-- `CommonTsetlinMachine.get_state` (`tm.py` lines 228-234): when the host
mirror of `clause_weights` is the empty array, both host mirrors are
refreshed from the device buffers; the tuple is built from the (possibly
refreshed) host mirrors plus shape metadata.  Mutates `self`, so it returns
the updated state together with the tuple. -/
def get_state (m : MState) : MState × StateTuple :=
  let m' := if m.weightsHost = [] then
    { m with taHost := m.taGpu, weightsHost := m.weightsGpu } else m
  (m', ⟨m'.taHost, m'.weightsHost, m'.number_of_outputs, m'.number_of_clauses,
    m'.number_of_literals, m'.depth, m'.number_of_state_bits,
    m'.number_of_ta_chunks, m'.min_y, m'.max_y⟩)

/-- `CommonTsetlinMachine.set_state` (`tm.py` lines 236-257): restores shape
metadata, uploads automaton state and weights to freshly allocated device
buffers (the kernels read only the first-layer region of `ta_state_gpu`,
which is exactly `state[0]`), clears the graph signatures, the cached
`encoded_Y` and both host mirrors.  The message-layer device buffers are
not touched. -/
def set_state (m : MState) (st : StateTuple) : MState :=
  { m with
    number_of_outputs := st.outs
    number_of_clauses := st.clauses
    number_of_literals := st.literals
    depth := st.depth
    number_of_state_bits := st.stateBits
    number_of_ta_chunks := st.taChunks
    min_y := st.minY
    max_y := st.maxY
    taGpu := st.ta
    weightsGpu := st.weights
    sigTrain := []
    sigTest := []
    encodedY := []
    taHost := []
    weightsHost := [] }

/-- Exactly the model state the device-side evaluation pipeline
(`_evaluate` plus the kernels it launches) reads: first-layer automata,
message-layer automata, clause weights, the hypervector table and the shape
metadata baked into the compiled kernels. -/
structure EvalInputs where
  ta : List Nat
  msgTa : List (List Nat)
  weights : List Int
  hvs : List (List Nat)
  outs : Nat
  clauses : Nat
  literals : Nat
  depth : Nat
  stateBits : Nat
  taChunks : Nat
deriving Repr, DecidableEq

def evalInputs (m : MState) : EvalInputs :=
  ⟨m.taGpu, m.msgTaGpu, m.weightsGpu, m.hypervectors, m.number_of_outputs,
   m.number_of_clauses, m.number_of_literals, m.depth,
   m.number_of_state_bits, m.number_of_ta_chunks⟩

/-- Kernel semantics for scoring, left opaque: given the evaluation inputs,
the graph set, an example index and an output index, the class sum the
device pipeline produces.  All theorems quantify over this. -/
def KernelSem : Type := EvalInputs → Graphs → Nat → Nat → Int

/-- The class-sum matrix `_score` assembles (`tm.py` lines 595-617):
`np.zeros((number_of_graphs, number_of_outputs))` filled row by row with a
fixed-size device-to-host copy, so the shape is `[examples × outputs]` by
construction whatever the kernels compute. -/
def scoreMat (n outputs : Nat) (f : Nat → Nat → Int) : List (List Int) :=
  (List.range n).map (fun e => (List.range outputs).map (f e))

/-- `CommonTsetlinMachine._score_init` (`tm.py` lines 563-590): exits the
process when the model was never initialized (modelled as `Except.error`);
otherwise records the test-set signature (buffer reallocation has no
observable content). -/
def score_init (m : MState) (g : Graphs) : Except String MState :=
  if m.initialized then .ok { m with sigTest := g.signature }
  else .error "Error: Model not trained."

/-- `CommonTsetlinMachine._score` (`tm.py` lines 592-617) with opaque kernel
semantics `f`. -/
def scoreM (f : KernelSem) (m : MState) (g : Graphs) : Except String (List (List Int)) :=
  (score_init m g).map (fun m' =>
    scoreMat g.number_of_graphs m'.number_of_outputs (f (evalInputs m') g))

/-- Host mirrors, when non-empty, hold copies of the device buffers: every
code path that fills them (`get_state`, `ta_action`) copies device to host,
and `_fit` / `set_state` clear them.  This is the state in which a trained
model finds itself. -/
def hostConsistent (m : MState) : Prop :=
  m.weightsHost = [] ∨ (m.taHost = m.taGpu ∧ m.weightsHost = m.weightsGpu)

/-! ## `_init_fit` (`tm.py` lines 334-377)

The `prepare` kernel writes fresh neutral automata and weights
(`kernels.code_prepare`, outside this repository's `src`); its outputs are
the parameters `prepTa`/`prepW`, and `prepMsg` is what
`prepare_message_ta_state` writes into one message layer.  On a fresh model
both kernels run; on an already-initialized model with `incremental=False`
only `prepare` runs (lines 343-345). -/
def init_fit (prepTa : List Nat) (prepW : List Int) (prepMsg : List Nat)
    (m : MState) (g : Graphs) (encY : List (List Int)) (incremental : Bool) : MState :=
  let m1 :=
    if m.initialized = false then
      { m with
        initialized := true
        taGpu := prepTa
        weightsGpu := prepW
        msgTaGpu := List.replicate (m.depth - 1) prepMsg }
    else if incremental = false then
      { m with taGpu := prepTa, weightsGpu := prepW }
    else m
  let m2 := if m1.sigTrain = g.signature then m1 else { m1 with sigTrain := g.signature }
  if m2.encodedY = encY then m2 else { m2 with encodedY := encY }

/-! ## `np.argmax` and the three `predict` entry points -/

/-- `np.argmax` over a 1-D integer array: index of the first occurrence of
the maximum (`0` on the empty list, where numpy would raise). -/
def npArgmax : List Int → Nat
  | [] => 0
  | [_] => 0
  | x :: y :: ys =>
    if x < (y :: ys).getD (npArgmax (y :: ys)) 0 then npArgmax (y :: ys) + 1 else 0

/-- `np.argmax(class_sums, axis=1)` (`MultiClassGraphTsetlinMachine.predict`,
`tm.py` line 756). -/
def mcPredictRows (s : List (List Int)) : List Nat := s.map npArgmax

/-- `(class_sums >= 0).astype(np.uint32)` rendered as booleans
(`MultiOutputGraphTsetlinMachine.predict`, `tm.py` lines 810-812). -/
def moPredictRows (s : List (List Int)) : List (List Bool) :=
  s.map (fun row => row.map (fun v => decide (0 ≤ v)))

/-- `score >= 0` (`GraphTsetlinMachine.predict`, `tm.py` lines 863-865). -/
def gtmPredictList (s : List Int) : List Bool := s.map (fun v => decide (0 ≤ v))

/-- `MultiClassGraphTsetlinMachine.predict` composed with `_score`. -/
def mcPredictM (f : KernelSem) (m : MState) (g : Graphs) : Except String (List Nat) :=
  (scoreM f m g).map mcPredictRows

/-- `MultiOutputGraphTsetlinMachine.predict` composed with `_score`. -/
def moPredictM (f : KernelSem) (m : MState) (g : Graphs) : Except String (List (List Bool)) :=
  (scoreM f m g).map moPredictRows

/-- `GraphTsetlinMachine.score` (`tm.py` line 861): column `0` of the
`_score` matrix, a 1-D vector. -/
def gtmScoreM (f : KernelSem) (m : MState) (g : Graphs) : Except String (List Int) :=
  (scoreM f m g).map (fun s => s.map (fun row => row.getD 0 0))

/-- `GraphTsetlinMachine.predict` composed with its `score`. -/
def gtmPredictM (f : KernelSem) (m : MState) (g : Graphs) : Except String (List Bool) :=
  (gtmScoreM f m g).map gtmPredictList

/-- Kernel semantics of the `transform` kernel, opaque like `KernelSem`. -/
def TransSem : Type := EvalInputs → Graphs → Nat → Nat → Int

/-- `CommonTsetlinMachine.transform` (`tm.py` lines 619-655): guarded by
`_score_init`, returns the per-clause transform matrix and the class sums. -/
def transformM (f : KernelSem) (t : TransSem) (m : MState) (g : Graphs) :
    Except String (List (List Int) × List (List Int)) :=
  (score_init m g).map (fun m' =>
    ((List.range g.number_of_graphs).map
        (fun e => (List.range m'.number_of_clauses).map (t (evalInputs m') g e)),
     scoreMat g.number_of_graphs m'.number_of_outputs (f (evalInputs m') g)))

/-! ## Concrete instances used by witnesses and counterexamples -/

def f0 : KernelSem := fun _ _ _ _ => 0

def t0 : TransSem := fun _ _ _ _ => 0

def g0 : Graphs := ⟨1, [], [7]⟩

def m0 : MState :=
  ⟨[1], [[2]], [3], [], [], 1, 1, 2, 2, 8, 1, none, none, [[0, 1]], true, [], [], []⟩

/-- A depth-2 trained model whose message-layer automaton buffer holds a
non-neutral value `5`. -/
def mC4 : MState :=
  ⟨[7], [[5]], [3], [], [], 1, 1, 2, 2, 8, 1, none, none, [[0, 1]], true, [], [], []⟩

/-- An uninitialized (never fitted) model. -/
def mC8 : MState :=
  ⟨[], [], [], [], [], 1, 1, 2, 1, 8, 1, none, none, [[0, 1]], false, [], [], []⟩

/-- C1: on a trained model (host mirrors either cleared, as `_fit` leaves
them, or faithful device copies), `set_state(get_state())` preserves every
model component the scoring pipeline reads — first-layer automata, clause
weights, message-layer automata, hypervectors and shape metadata — so
`score(graphs)` afterwards is bit-identical to `score(graphs)` before, for
every kernel semantics `f`, every graph set and every configured depth. -/
theorem c1_state_roundtrip (f : KernelSem) (m : MState) (g : Graphs)
    (hinit : m.initialized = true) (hcons : hostConsistent m) :
    scoreM f (set_state (get_state m).1 (get_state m).2) g = scoreM f m g := by
  rcases eq_or_ne m.weightsHost [] with hw | hw
  · have e1 : get_state m =
        ({ m with taHost := m.taGpu, weightsHost := m.weightsGpu },
         ⟨m.taGpu, m.weightsGpu, m.number_of_outputs, m.number_of_clauses,
          m.number_of_literals, m.depth, m.number_of_state_bits,
          m.number_of_ta_chunks, m.min_y, m.max_y⟩) := by
      simp [get_state, hw]
    rw [e1]
    simp [scoreM, score_init, set_state, evalInputs, hinit, Except.map]
  · rcases hcons with h | ⟨hta, hwt⟩
    · exact absurd h hw
    · have e1 : get_state m =
          (m, ⟨m.taHost, m.weightsHost, m.number_of_outputs, m.number_of_clauses,
           m.number_of_literals, m.depth, m.number_of_state_bits,
           m.number_of_ta_chunks, m.min_y, m.max_y⟩) := by
        simp [get_state, hw]
      rw [e1]
      simp [scoreM, score_init, set_state, evalInputs, hta, hwt, hinit, Except.map]

/-- C1 (witness): the round-trip identity instantiated on the concrete
trained model `m0`, graph set `g0` and kernel semantics `f0`. -/
theorem c1_state_roundtrip_witness :
    scoreM f0 (set_state (get_state m0).1 (get_state m0).2) g0 = scoreM f0 m0 g0 :=
  c1_state_roundtrip f0 m0 g0 rfl (Or.inl rfl)

/-- C4 (counterexample): claim C4 says a non-incremental `fit` on an
already-initialized model resets the message-layer automata (depth > 1) to
their neutral initialization.  On the concrete depth-2 model `mC4` whose
message-layer buffer holds `[[5]]`, with the prepare kernels writing the
neutral value `0`, `_init_fit(incremental=False)` leaves the message-layer
buffer at `[[5]]`, not at the neutral `[[0]]`: line 344 of `tm.py` reruns
`prepare` but never `prepare_message_ta_state`. -/
theorem c4_counterexample :
    (init_fit [0] [0] [0] mC4 g0 [] false).msgTaGpu = [[5]] ∧
    List.replicate (mC4.depth - 1) ([0] : List Nat) = [[0]] ∧
    ([[5]] : List (List Nat)) ≠ [[0]] := by
  refine ⟨rfl, rfl, ?_⟩
  decide

/-- C4 (amended): a non-incremental `fit` on an already-initialized model
rewrites the surface-layer automata and the clause weights with the
`prepare` kernel's fresh output, but leaves every message-layer automaton
buffer untouched (the reset loop over `prepare_message_ta_state` runs only
on first initialization). -/
theorem c4_amended_nonincremental_reset (prepTa : List Nat) (prepW : List Int)
    (prepMsg : List Nat) (m : MState) (g : Graphs) (encY : List (List Int))
    (hinit : m.initialized = true) :
    (init_fit prepTa prepW prepMsg m g encY false).taGpu = prepTa ∧
    (init_fit prepTa prepW prepMsg m g encY false).weightsGpu = prepW ∧
    (init_fit prepTa prepW prepMsg m g encY false).msgTaGpu = m.msgTaGpu ∧
    (init_fit prepTa prepW prepMsg m g encY false).initialized = true := by
  refine ⟨?_, ?_, ?_, ?_⟩ <;>
    (simp only [init_fit, hinit]; (repeat' split) <;> simp_all)

/-- C4 (amended, witness): the amended statement instantiated on `mC4`. -/
theorem c4_amended_witness :
    (init_fit [0] [0] [0] mC4 g0 [] false).taGpu = [0] ∧
    (init_fit [0] [0] [0] mC4 g0 [] false).weightsGpu = [0] ∧
    (init_fit [0] [0] [0] mC4 g0 [] false).msgTaGpu = mC4.msgTaGpu ∧
    (init_fit [0] [0] [0] mC4 g0 [] false).initialized = true :=
  c4_amended_nonincremental_reset [0] [0] [0] mC4 g0 [] rfl

/-- C8: on a model never initialized by a prior `fit`, `score`, every
subclass's `predict` (all of which route through `_score_init`), and
`transform` fail with the typed error the `sys.exit(-1)` path reports, for
every kernel semantics — no silent prediction is returned. -/
theorem c8_uninitialized_errors (f : KernelSem) (t : TransSem) (m : MState)
    (g : Graphs) (hinit : m.initialized = false) :
    scoreM f m g = .error "Error: Model not trained." ∧
    mcPredictM f m g = .error "Error: Model not trained." ∧
    moPredictM f m g = .error "Error: Model not trained." ∧
    gtmScoreM f m g = .error "Error: Model not trained." ∧
    gtmPredictM f m g = .error "Error: Model not trained." ∧
    transformM f t m g = .error "Error: Model not trained." := by
  simp [scoreM, mcPredictM, moPredictM, gtmScoreM, gtmPredictM, transformM,
    score_init, hinit, Except.map]

/-! ## Buffer plumbing of `_evaluate` (`tm.py` lines 379-472)

`_evaluate` first runs `calculate_messages`, writing layer-zero clause
outputs into the `current_clause_node_output` buffer, then loops
`for depth in range(self.depth-1)`: each iteration reads `current` (in
`exchange_messages`), writes the next layer's clause outputs into `next`
(in `calculate_messages_conditional`), and swaps the two buffer variables
(lines 458-460); finally the `evaluate` kernel reads the buffer the
variable `current_clause_node_output` holds.  The two physical buffers are
modelled as `false` (the buffer passed as `current`, which layer zero
writes) and `true` (the buffer passed as `next`). -/

/-- One message round is recorded as `(read buffer, written buffer)`.
`msgRounds n cur nxt` simulates `n` loop iterations starting from buffer
variables `(cur, nxt)` and also returns the buffer that the `current`
variable holds after the loop, i.e. what the `evaluate` kernel reads. -/
def msgRounds : Nat → Bool → Bool → List (Bool × Bool) × Bool
  | 0, cur, _ => ([], cur)
  | n + 1, cur, nxt =>
    let rest := msgRounds n nxt cur
    ((cur, nxt) :: rest.1, rest.2)

/-- The whole `_evaluate` pass: layer zero writes buffer `false`, then
`depth - 1` message rounds run. -/
def evaluatePass (depth : Nat) : List (Bool × Bool) × Bool :=
  msgRounds (depth - 1) false true

lemma msgRounds_length (n : Nat) : ∀ cur nxt, (msgRounds n cur nxt).1.length = n := by
  induction n with
  | zero => intro cur nxt; rfl
  | succ k ih =>
    intro cur nxt
    simp only [msgRounds, List.length_cons, ih]

lemma msgRounds_getD (n : Nat) : ∀ cur nxt k, k < n →
    (msgRounds n cur nxt).1.getD k (false, false) =
      (if k % 2 = 0 then (cur, nxt) else (nxt, cur)) := by
  induction n with
  | zero => intro cur nxt k hk; omega
  | succ m ih =>
    intro cur nxt k hk
    cases k with
    | zero => simp [msgRounds]
    | succ j =>
      have hj : j < m := by omega
      simp only [msgRounds, List.getD_cons_succ, ih nxt cur j hj]
      rcases Nat.even_or_odd j with he | ho
      · have h1 : j % 2 = 0 := Nat.even_iff.mp he
        have h2 : (j + 1) % 2 = 1 := by omega
        simp [h1, h2]
      · have h1 : j % 2 = 1 := Nat.odd_iff.mp ho
        have h2 : (j + 1) % 2 = 0 := by omega
        simp [h1, h2]

lemma msgRounds_final (n : Nat) : ∀ cur nxt,
    (msgRounds n cur nxt).2 = (if n % 2 = 0 then cur else nxt) := by
  induction n with
  | zero => intro cur nxt; rfl
  | succ m ih =>
    intro cur nxt
    simp only [msgRounds, ih nxt cur]
    rcases Nat.even_or_odd m with he | ho
    · have h1 : m % 2 = 0 := Nat.even_iff.mp he
      have h2 : (m + 1) % 2 = 1 := by omega
      simp [h1, h2]
    · have h1 : m % 2 = 1 := Nat.odd_iff.mp ho
      have h2 : (m + 1) % 2 = 0 := by omega
      simp [h1, h2]

/-- C3: for `depth > 1`, one `_evaluate` pass performs exactly `depth - 1`
message rounds after layer-zero evaluation; the first round reads the
buffer layer zero wrote; each following round's `(current, next)` pair is
the previous round's pair swapped; and the final `evaluate` (class-sum)
kernel reads exactly the buffer the last round wrote. -/
theorem c3_message_rounds (depth : Nat) (hd : 1 < depth) :
    (evaluatePass depth).1.length = depth - 1 ∧
    (evaluatePass depth).1.getD 0 (false, false) = (false, true) ∧
    (∀ k, k + 1 < depth - 1 →
      (evaluatePass depth).1.getD (k + 1) (false, false) =
        (((evaluatePass depth).1.getD k (false, false)).2,
         ((evaluatePass depth).1.getD k (false, false)).1)) ∧
    (evaluatePass depth).2 =
      ((evaluatePass depth).1.getD (depth - 1 - 1) (false, false)).2 := by
  have hn : 1 ≤ depth - 1 := by omega
  refine ⟨msgRounds_length _ _ _, ?_, ?_, ?_⟩
  · rw [evaluatePass, msgRounds_getD (depth - 1) false true 0 (by omega)]
    simp
  · intro k hk
    rw [evaluatePass, msgRounds_getD (depth - 1) false true (k + 1) (by omega),
      msgRounds_getD (depth - 1) false true k (by omega)]
    rcases Nat.even_or_odd k with he | ho
    · have h1 : k % 2 = 0 := Nat.even_iff.mp he
      have h2 : (k + 1) % 2 = 1 := by omega
      simp [h1, h2]
    · have h1 : k % 2 = 1 := Nat.odd_iff.mp ho
      have h2 : (k + 1) % 2 = 0 := by omega
      simp [h1, h2]
  · rw [evaluatePass, msgRounds_final (depth - 1) false true,
      msgRounds_getD (depth - 1) false true (depth - 1 - 1) (by omega)]
    rcases Nat.even_or_odd (depth - 1 - 1) with he | ho
    · have h1 : (depth - 1 - 1) % 2 = 0 := Nat.even_iff.mp he
      have h2 : (depth - 1) % 2 = 1 := by omega
      simp [h1, h2]
    · have h1 : (depth - 1 - 1) % 2 = 1 := Nat.odd_iff.mp ho
      have h2 : (depth - 1) % 2 = 0 := by omega
      simp [h1, h2]

/-- C3 (witness): at `depth = 3` the pass runs two rounds
`[(false, true), (true, false)]` and the class-sum kernel reads buffer
`false`, the one the second round wrote. -/
theorem c3_message_rounds_witness :
    (evaluatePass 3).1.length = 3 - 1 ∧
    (evaluatePass 3).1.getD 0 (false, false) = (false, true) ∧
    (∀ k, k + 1 < 3 - 1 →
      (evaluatePass 3).1.getD (k + 1) (false, false) =
        (((evaluatePass 3).1.getD k (false, false)).2,
         ((evaluatePass 3).1.getD k (false, false)).1)) ∧
    (evaluatePass 3).2 =
      ((evaluatePass 3).1.getD (3 - 1 - 1) (false, false)).2 :=
  c3_message_rounds 3 (by decide)

/-! ## Target encoding of the three `fit` entry points

`MultiClassGraphTsetlinMachine.fit` (`tm.py` lines 740-750),
`MultiOutputGraphTsetlinMachine.fit` (lines 796-804) and
`GraphTsetlinMachine.fit` (lines 848-858). -/

/-- `int(np.max(Y) + 1)` (`tm.py` line 741); `np.max` over a non-empty list
of naturals is `foldr max 0`. -/
def mcNumberOfOutputs (Y : List Nat) : Nat := Y.foldr max 0 + 1

/-- Column `i` of the multi-class target encoding:
`np.where(Y == i, T, -T)` (`tm.py` line 748). -/
def mcEncodeColumn (T : Int) (Y : List Nat) (i : Nat) : List Int :=
  Y.map (fun y => if y = i then T else -T)

/-- The complete multi-class `encoded_Y`, stored column by column exactly
as the loop at `tm.py` lines 747-748 fills it. -/
def mcEncodedY (T : Int) (Y : List Nat) : List (List Int) :=
  (List.range (mcNumberOfOutputs Y)).map (mcEncodeColumn T Y)

/-- `np.where(Y == 1, T, -T)` on a 2-D label matrix
(`MultiOutputGraphTsetlinMachine.fit`, `tm.py` line 802). -/
def moEncodedY (T : Int) (Y : List (List Nat)) : List (List Int) :=
  Y.map (fun row => row.map (fun v => if v = 1 then T else -T))

/-- `np.where(Y == 1, T, -T)` on a 1-D label vector
(`GraphTsetlinMachine.fit`, `tm.py` line 854). -/
def gtmEncodedY (T : Int) (Y : List Nat) : List Int :=
  Y.map (fun v => if v = 1 then T else -T)

lemma getD_map_lt {α β : Type} (f : α → β) (l : List α) {j : Nat}
    (hj : j < l.length) (d : β) (d' : α) :
    (l.map f).getD j d = f (l.getD j d') := by
  have h2 : l[j]? = some (l.get ⟨j, hj⟩) := by
    rw [List.getElem?_eq_getElem hj]; rfl
  have h1 : (l.map f)[j]? = some (f (l.get ⟨j, hj⟩)) := by
    rw [List.getElem?_map, h2]; rfl
  simp [List.getD_eq_getElem?_getD, h1, h2]

lemma getD_range_lt {n j : Nat} (hj : j < n) (d : Nat) :
    (List.range n).getD j d = j := by
  have h1 : (List.range n)[j]? = some j := by
    rw [List.getElem?_eq_getElem (by simpa using hj)]
    simp
  simp [List.getD_eq_getElem?_getD, h1]

/-- C5: the internal target encodings.  Multi-class (`tm.py` 746-748):
entry for example `j` in class column `i` is `+T` when `Y[j] = i` (the true
class) and `-T` for every other column.  Multi-output (`tm.py` 802) and
binary (`tm.py` 854): each output bit is `+T` where `Y` equals `1` and `-T`
otherwise, independently per bit. -/
theorem c5_target_encoding (T : Int) (Y : List Nat) (Ym : List (List Nat))
    (Yb : List Nat) (i j e b : Nat) (hi : i < mcNumberOfOutputs Y)
    (hj : j < Y.length) (he : e < Ym.length) (hb : b < (Ym.getD e []).length)
    (hbj : j < Yb.length) :
    ((mcEncodedY T Y).getD i []).getD j 0 =
      (if Y.getD j 0 = i then T else -T) ∧
    ((moEncodedY T Ym).getD e []).getD b 0 =
      (if (Ym.getD e []).getD b 0 = 1 then T else -T) ∧
    (gtmEncodedY T Yb).getD j 0 =
      (if Yb.getD j 0 = 1 then T else -T) := by
  refine ⟨?_, ?_, ?_⟩
  · have h1 : (mcEncodedY T Y).getD i [] = mcEncodeColumn T Y i := by
      rw [mcEncodedY, getD_map_lt (mcEncodeColumn T Y) (List.range (mcNumberOfOutputs Y))
        (by simpa using hi) [] 0, getD_range_lt hi]
    rw [h1, mcEncodeColumn, getD_map_lt _ Y hj 0 0]
  · have h1 : (moEncodedY T Ym).getD e [] =
        (Ym.getD e []).map (fun v => if v = 1 then T else -T) := by
      rw [moEncodedY, getD_map_lt _ Ym he [] []]
    rw [h1, getD_map_lt _ (Ym.getD e []) hb 0 0]
  · rw [gtmEncodedY, getD_map_lt _ Yb hbj 0 0]

/-- C5 (witness): concrete labels.  Multi-class `Y = [2, 0]` at column `0`,
example `0`: `-T` (class `2 ≠ 0`); multi-output `Ym = [[1, 0]]` bit `1`:
`-T`; binary `Yb = [1, 0]` example `0`: `+T`; with `T = 15`. -/
theorem c5_target_encoding_witness :
    ((mcEncodedY 15 [2, 0]).getD 0 []).getD 0 0 =
      (if ([2, 0] : List Nat).getD 0 0 = 0 then 15 else -15) ∧
    ((moEncodedY 15 [[1, 0]]).getD 0 []).getD 1 0 =
      (if (([[1, 0]] : List (List Nat)).getD 0 []).getD 1 0 = 1 then 15 else -15) ∧
    (gtmEncodedY 15 [1, 0]).getD 0 0 =
      (if ([1, 0] : List Nat).getD 0 0 = 1 then 15 else -15) :=
  c5_target_encoding 15 [2, 0] [[1, 0]] [1, 0] 0 0 0 1
    (by decide) (by decide) (by decide) (by decide) (by decide)

/-- C10: `MultiClassGraphTsetlinMachine.fit` sets the number of outputs to
`int(max(Y)) + 1`: one column per index up to the maximum label, so every
label value up to `max Y` — occurring in `Y` or not — owns a column, and
the count can exceed the number of distinct labels (`Y = [0, 2]` yields `3`
outputs but only `2` distinct labels). -/
theorem c10_outputs_from_max_label (Y : List Nat) :
    mcNumberOfOutputs Y = Y.foldr max 0 + 1 ∧
    (∀ i, i ≤ Y.foldr max 0 → i < (mcEncodedY 1 Y).length) ∧
    mcNumberOfOutputs [0, 2] = 3 ∧
    (List.dedup [0, 2]).length = 2 ∧
    mcNumberOfOutputs [0, 2] ≠ (List.dedup ([0, 2] : List Nat)).length := by
  refine ⟨rfl, ?_, by decide, by decide, by decide⟩
  intro i hi
  simp only [mcEncodedY, List.length_map, List.length_range, mcNumberOfOutputs]
  omega

/-- C10 (witness): the statement instantiated at `Y = [0, 2]`, with the
column-existence part applied to the never-occurring label `1`. -/
theorem c10_outputs_from_max_label_witness :
    mcNumberOfOutputs [0, 2] = List.foldr max 0 [0, 2] + 1 ∧
    1 < (mcEncodedY 1 [0, 2]).length ∧
    mcNumberOfOutputs [0, 2] ≠ (List.dedup ([0, 2] : List Nat)).length := by
  obtain ⟨h1, h2, -, -, h5⟩ := c10_outputs_from_max_label [0, 2]
  exact ⟨h1, h2 1 (by decide), h5⟩

/-! ## `np.argmax` semantics (first index of the maximum) -/

lemma npArgmax_lt_length : ∀ l : List Int, l ≠ [] → npArgmax l < l.length := by
  intro l
  induction l with
  | nil => intro h; exact absurd rfl h
  | cons x xs ih =>
    intro _
    cases xs with
    | nil => simp [npArgmax]
    | cons y ys =>
      simp only [npArgmax]
      split
      · have := ih (by simp)
        simp only [List.length_cons] at this ⊢
        omega
      · simp

lemma npArgmax_is_max : ∀ (l : List Int) (j : Nat), j < l.length →
    l.getD j 0 ≤ l.getD (npArgmax l) 0 := by
  intro l
  induction l with
  | nil => intro j hj; simp at hj
  | cons x xs ih =>
    intro j hj
    cases xs with
    | nil =>
      cases j with
      | zero => simp [npArgmax]
      | succ k => simp only [List.length_cons, List.length_nil] at hj; omega
    | cons y ys =>
      simp only [npArgmax]
      split
      · rename_i h
        cases j with
        | zero => simpa using le_of_lt h
        | succ k =>
          simp only [List.getD_cons_succ]
          exact ih k (by simpa using hj)
      · rename_i h
        cases j with
        | zero => simp
        | succ k =>
          simp only [List.getD_cons_succ, List.getD_cons_zero]
          exact le_trans (ih k (by simpa using hj)) (not_lt.mp h)

lemma npArgmax_first : ∀ (l : List Int) (j : Nat), j < npArgmax l →
    l.getD j 0 < l.getD (npArgmax l) 0 := by
  intro l
  induction l with
  | nil => intro j hj; simp [npArgmax] at hj
  | cons x xs ih =>
    intro j hj
    cases xs with
    | nil => simp [npArgmax] at hj
    | cons y ys =>
      simp only [npArgmax] at hj ⊢
      split
      · rename_i h
        cases j with
        | zero => simpa using h
        | succ k =>
          simp only [List.getD_cons_succ]
          rw [if_pos h] at hj
          exact ih k (by omega)
      · rename_i h
        rw [if_neg h] at hj
        omega

/-- C6: the three `predict` entry points are exact post-compositions of the
corresponding `score`: multi-class applies `np.argmax` per example row
(`npArgmax` picks an in-range index holding the row maximum, the first such
index); multi-output and binary apply the elementwise signed threshold
`score >= 0`. -/
theorem c6_predict_derived_from_score (f : KernelSem) (m : MState) (g : Graphs)
    (row : List Int) (j : Nat) (hrow : row ≠ []) (hj : j < row.length) :
    mcPredictM f m g = (scoreM f m g).map (fun s => s.map npArgmax) ∧
    moPredictM f m g =
      (scoreM f m g).map (fun s => s.map (fun r => r.map (fun v => decide (0 ≤ v)))) ∧
    gtmPredictM f m g =
      ((scoreM f m g).map (fun s => s.map (fun r => r.getD 0 0))).map
        (fun s => s.map (fun v => decide (0 ≤ v))) ∧
    npArgmax row < row.length ∧
    row.getD j 0 ≤ row.getD (npArgmax row) 0 ∧
    (j < npArgmax row → row.getD j 0 < row.getD (npArgmax row) 0) :=
  ⟨rfl, rfl, rfl, npArgmax_lt_length row hrow, npArgmax_is_max row j hj,
    npArgmax_first row j⟩

/-- C6 (witness): instantiated on `f0`, `m0`, `g0` and the score row
`[1, 3, 3]` at index `2`: the argmax is the first maximal index `1`. -/
theorem c6_predict_derived_from_score_witness :
    mcPredictM f0 m0 g0 = (scoreM f0 m0 g0).map (fun s => s.map npArgmax) ∧
    npArgmax [1, 3, 3] < ([1, 3, 3] : List Int).length ∧
    ([1, 3, 3] : List Int).getD 2 0 ≤
      ([1, 3, 3] : List Int).getD (npArgmax [1, 3, 3]) 0 ∧
    (2 < npArgmax [1, 3, 3] →
      ([1, 3, 3] : List Int).getD 2 0 <
        ([1, 3, 3] : List Int).getD (npArgmax [1, 3, 3]) 0) := by
  obtain ⟨h1, -, -, h4, h5, h6⟩ :=
    c6_predict_derived_from_score f0 m0 g0 [1, 3, 3] 2 (by decide) (by decide)
  exact ⟨h1, h4, h5, h6⟩

/-! ## Result shapes of the `score` entry points (claim C7)

A minimal model of numpy array nesting: an `Np` value is an integer scalar
or an array of `Np` values. -/

inductive Np where
  | int : Int → Np
  | arr : List Np → Np

/-- `x` is a 2-D integer matrix with `r` rows and `c` columns. -/
def isMatrixOfShape : Np → Nat → Nat → Bool
  | .arr rows, r, c =>
    rows.length == r && rows.all (fun row =>
      match row with
      | .arr cells =>
        cells.length == c && cells.all (fun cell =>
          match cell with
          | .int _ => true
          | .arr _ => false)
      | .int _ => false)
  | .int _, _, _ => false

/-- `x` is a 1-D integer vector of length `n`. -/
def isIntVectorOfLength : Np → Nat → Bool
  | .arr cells, n =>
    cells.length == n && cells.all (fun cell =>
      match cell with
      | .int _ => true
      | .arr _ => false)
  | .int _, _ => false

/-- `_score`'s return value as a numpy value: the 2-D
`np.zeros((number_of_graphs, number_of_outputs))` matrix filled per
example.  This is what `MultiClassGraphTsetlinMachine.score` and
`MultiOutputGraphTsetlinMachine.score` return unchanged. -/
def scoreNpValue (n outputs : Nat) (f : Nat → Nat → Int) : Np :=
  .arr ((scoreMat n outputs f).map (fun row => .arr (row.map .int)))

/-- `GraphTsetlinMachine.score`'s return value: `_score(graphs)[:, 0]`, a
1-D slice (`tm.py` line 861). -/
def gtmScoreNpValue (n outputs : Nat) (f : Nat → Nat → Int) : Np :=
  .arr ((scoreMat n outputs f).map (fun row => .int (row.getD 0 0)))

/-- A concrete kernel column function for the C7 counterexample. -/
def fC7 : Nat → Nat → Int := fun _ _ => 0

/-- C7 (counterexample): on a two-example graph set with one output, the
binary subclass's `score` returns the 1-D slice `[0, 0]`, which is not an
integer matrix of shape `[examples × outputs] = [2 × 1]` — the claim fails
for the binary single-output subclass. -/
theorem c7_counterexample :
    isMatrixOfShape (gtmScoreNpValue 2 1 fC7) 2 1 = false := by
  decide

/-- C7 (amended): for every initialized model and graph set, multi-class
and multi-output `score` return the integer matrix of shape
`[examples × outputs]` assembled by `_score`; the binary subclass instead
returns the 1-D integer vector of length `examples` obtained by slicing
column `0`. -/
theorem c7_amended_score_shapes (n outputs : Nat) (f : Nat → Nat → Int) :
    isMatrixOfShape (scoreNpValue n outputs f) n outputs = true ∧
    isIntVectorOfLength (gtmScoreNpValue n outputs f) n = true := by
  constructor
  · simp only [scoreNpValue, isMatrixOfShape, Bool.and_eq_true, beq_iff_eq,
      List.length_map]
    refine ⟨by simp [scoreMat], ?_⟩
    rw [List.all_eq_true]
    intro x hx
    simp only [scoreMat, List.mem_map, List.mem_range] at hx
    obtain ⟨row, ⟨e, -, rfl⟩, rfl⟩ := hx
    simp [List.all_eq_true]
  · simp only [gtmScoreNpValue, isIntVectorOfLength, Bool.and_eq_true, beq_iff_eq,
      List.length_map]
    refine ⟨by simp [scoreMat], ?_⟩
    rw [List.all_eq_true]
    intro x hx
    simp only [List.mem_map] at hx
    obtain ⟨row, -, rfl⟩ := hx
    simp

/-- C8 (witness): the uninitialized model `mC8` errors on all entry points. -/
theorem c8_uninitialized_errors_witness :
    scoreM f0 mC8 g0 = .error "Error: Model not trained." ∧
    mcPredictM f0 mC8 g0 = .error "Error: Model not trained." ∧
    moPredictM f0 mC8 g0 = .error "Error: Model not trained." ∧
    gtmScoreM f0 mC8 g0 = .error "Error: Model not trained." ∧
    gtmPredictM f0 mC8 g0 = .error "Error: Model not trained." ∧
    transformM f0 t0 mC8 g0 = .error "Error: Model not trained." :=
  c8_uninitialized_errors f0 t0 mC8 g0 rfl

end GraphTM
